import Mathlib

/-!
Verification of the Tseitin clausification certificate checker
(`src/sat/smt/tseitin_proof_checker.cpp`).

Terms are modelled as a shallow embedding of the solver's hash-consed
expression DAG: pointer equality on `expr*` corresponds to structural
equality of `Expr` values.  The checker's entry point `proof_checker::check`
is embedded as `check`, its `equiv` helper as `equiv`; the two-channel mark
store declared in the (absent) header is embedded as `Marks`.
-/

namespace Tseitin

/-- Terms of the expression DAG restricted to the connectives the checker
inspects: `atom` is a Boolean-sorted constant, `tatom` a non-Boolean-sorted
constant (so that the checker's `is_bool` sort tests are expressible), and
the remaining constructors are the compound connectives
{not, and, or, eq, ite, implies, xor} with their argument lists. -/
inductive Expr where
  | atom : Nat → Expr
  | tatom : Nat → Expr
  | not : Expr → Expr
  | and : List Expr → Expr
  | or : List Expr → Expr
  | eq : Expr → Expr → Expr
  | ite : Expr → Expr → Expr → Expr
  | implies : Expr → Expr → Expr
  | xor : List Expr → Expr

mutual
/-- Structural (= pointer, by hash-consing) equality test on terms. -/
def beqExpr : Expr → Expr → Bool
  | .atom i, .atom j => i == j
  | .tatom i, .tatom j => i == j
  | .not a, .not b => beqExpr a b
  | .and as, .and bs => beqList as bs
  | .or as, .or bs => beqList as bs
  | .eq a b, .eq c d => beqExpr a c && beqExpr b d
  | .ite a b c, .ite d e f => beqExpr a d && beqExpr b e && beqExpr c f
  | .implies a b, .implies c d => beqExpr a c && beqExpr b d
  | .xor as, .xor bs => beqList as bs
  | _, _ => false

/-- Structural equality test on argument lists. -/
def beqList : List Expr → List Expr → Bool
  | [], [] => true
  | a :: as, b :: bs => beqExpr a b && beqList as bs
  | _, _ => false
end

def beqExpr_iff_aux : ∀ (n : Nat),
    (∀ a b : Expr, sizeOf a ≤ n → (beqExpr a b = true ↔ a = b)) ∧
    (∀ as bs : List Expr, sizeOf as ≤ n → (beqList as bs = true ↔ as = bs)) := by
  intro n
  induction n using Nat.strong_induction_on with
  | _ n ih =>
    constructor
    · intro a b hn
      cases a <;> cases b <;> simp [beqExpr]
      case not.not a b =>
        exact (ih (sizeOf a) (by simp at hn; omega) |>.1) a b le_rfl
      case and.and as bs =>
        exact (ih (sizeOf as) (by simp at hn; omega) |>.2) as bs le_rfl
      case or.or as bs =>
        exact (ih (sizeOf as) (by simp at hn; omega) |>.2) as bs le_rfl
      case eq.eq a b c d =>
        rw [(ih (sizeOf a) (by simp at hn; omega) |>.1) a c le_rfl,
          (ih (sizeOf b) (by simp at hn; omega) |>.1) b d le_rfl]
      case ite.ite a b c d e f =>
        rw [(ih (sizeOf a) (by simp at hn; omega) |>.1) a d le_rfl,
          (ih (sizeOf b) (by simp at hn; omega) |>.1) b e le_rfl,
          (ih (sizeOf c) (by simp at hn; omega) |>.1) c f le_rfl, and_assoc]
      case implies.implies a b c d =>
        rw [(ih (sizeOf a) (by simp at hn; omega) |>.1) a c le_rfl,
          (ih (sizeOf b) (by simp at hn; omega) |>.1) b d le_rfl]
      case xor.xor as bs =>
        exact (ih (sizeOf as) (by simp at hn; omega) |>.2) as bs le_rfl
    · intro as bs hn
      cases as <;> cases bs <;> simp [beqList]
      case cons.cons a as b bs =>
        rw [(ih (sizeOf a) (by simp at hn; omega) |>.1) a b le_rfl,
          (ih (sizeOf as) (by simp at hn; omega) |>.2) as bs le_rfl]

instance : DecidableEq Expr := fun a b =>
  decidable_of_iff (beqExpr a b = true) ((beqExpr_iff_aux (sizeOf a)).1 a b le_rfl)

/-- Sort test `m.is_bool`: every connective is Boolean-sorted, a `tatom`
is not, and an `ite` has the sort of its branches. -/
def Expr.isBool : Expr → Bool
  | .atom _ => true
  | .tatom _ => false
  | .not _ => true
  | .and _ => true
  | .or _ => true
  | .eq _ _ => true
  | .ite _ _ z => z.isBool
  | .implies _ _ => true
  | .xor _ => true

/-- Shape test `m.is_not`: is the term a negation. -/
def Expr.isNot : Expr → Bool
  | .not _ => true
  | _ => false

mutual
/-- Cached structural depth used by the representative scan
(`get_depth`): the number of nodes on the longest root-to-leaf path, so a
constant has depth 1. -/
def depth : Expr → Nat
  | .atom _ => 1
  | .tatom _ => 1
  | .not a => 1 + depth a
  | .and args => 1 + depthList args
  | .or args => 1 + depthList args
  | .eq x y => 1 + max (depth x) (depth y)
  | .ite x y z => 1 + max (depth x) (max (depth y) (depth z))
  | .implies x y => 1 + max (depth x) (depth y)
  | .xor args => 1 + depthList args

/-- Largest depth over a list of sub-terms. -/
def depthList : List Expr → Nat
  | [] => 0
  | a :: as => max (depth a) (depthList as)
end

/-- Logical complement of a literal, computed structurally: one negation is
stripped if present, otherwise added (glossary: double negation collapses). -/
def negateExpr : Expr → Expr
  | .not b => b
  | a => .not a

/-- Negation test `m.is_not(main_expr)` lifted to the nullable scan
state of the representative-selection loop. -/
def isNotOpt : Option Expr → Bool
  | some e => e.isNot
  | none => false

/-- One iteration of the representative-selection loop of
`proof_checker::check` (lines 44-52): the state is the pair
`(main_expr, max_depth)`; a strictly deeper literal replaces the held one,
and a literal tying the current maximum replaces it whenever the held
literal is a negation. -/
def repStep : Option Expr × Nat → Expr → Option Expr × Nat
  | (main0, maxd0), arg =>
    let argDepth := depth arg
    let st := if maxd0 < argDepth then (some arg, argDepth) else (main0, maxd0)
    let main := if argDepth = st.2 ∧ isNotOpt st.1 = true then some arg else st.1
    (main, st.2)

/-- Representative literal of a clause: the `main_expr` left by the scan,
starting from `(nullptr, 0)`. -/
def pickRep (jst : List Expr) : Option Expr :=
  (jst.foldl repStep (none, 0)).1

/-- Modelled from the spec: the MarkStore of the missing header
`tseitin_proof_checker.h` (spec section 4.2) is a call-scoped two-channel
store; `mmark` is the plain presence channel, `nmark` the
complement-attested channel. -/
structure Marks where
  mmark : List Expr
  nmark : List Expr

/-- Empty mark store, the state at scope open and after scope close. -/
def Marks.empty : Marks := ⟨[], []⟩

/-- Modelled from the spec: `mark(t)` records `t` present on the positive
channel only. -/
def mark (ms : Marks) (a : Expr) : Marks :=
  { ms with mmark := a :: ms.mmark }

/-- Modelled from the spec: `markComplement(t)` records `t` present and its
logical complement attested, so that after marking every clause literal
`l`, `isMarked l` holds and `isComplement (negateExpr l)` holds: the term
itself goes on the positive channel and, when it is a negation `not b`,
its body `b` goes on the complement channel. -/
def complement_mark (ms : Marks) (a : Expr) : Marks :=
  let ms1 := { ms with mmark := a :: ms.mmark }
  match a with
  | .not b => { ms1 with nmark := b :: ms1.nmark }
  | _ => ms1

/-- Modelled from the spec: `isMarked(t)` queries the positive channel;
unseen terms default to false. -/
def is_marked (ms : Marks) (a : Expr) : Bool :=
  ms.mmark.contains a

/-- Modelled from the spec: `isComplement(t)` asks whether the complement
of `t` was attested: a negation `not b` is the attested complement of a
positively marked `b`, and any other term consults the complement
channel. -/
def is_complement (ms : Marks) (a : Expr) : Bool :=
  match a with
  | .not b => is_marked ms b
  | _ => ms.nmark.contains a

/-- Mark store obtained by `complement_mark`-ing every clause literal into
a fresh scope, as the signed-presence rule branches of `check` do. -/
def complementMarks (jst : List Expr) : Marks :=
  jst.foldl complement_mark Marks.empty

/-- Mark store obtained by plain `mark`-ing every clause literal into a
fresh scope, as the negated-and / negated-or sub-checks do. -/
def plainMarks (jst : List Expr) : Marks :=
  jst.foldl mark Marks.empty

/-- Structural literal equivalence `proof_checker::equiv` (lines 234-241):
identical terms, or two equalities with cross-matched sides. -/
def equiv (a b : Expr) : Bool :=
  if a = b then true
  else
    match a, b with
    | .eq x y, .eq z u => x = u && y = z
    | _, _ => false

/-- Body of the parity loop of the xor branches (lines 140-145, 217-222):
a marked argument increments the counter, an otherwise
complement-attested one decrements it. -/
def parityStep (ms : Marks) (p : Int) (arg : Expr) : Int :=
  if is_marked ms arg then p + 1
  else if is_complement ms arg then p - 1
  else p

/-- Rule body for an `and` representative (lines 66-70): every conjunct
has its complement attested. -/
def andTest (ms : Marks) (args : List Expr) : Bool :=
  args.all (fun arg => is_complement ms arg)

/-- Rule body for an `or` representative (lines 78-81): some disjunct has
its complement attested. -/
def orTest (ms : Marks) (args : List Expr) : Bool :=
  args.any (fun arg => is_complement ms arg)

/-- Rule body for a Boolean `eq` representative (lines 90-93). -/
def eqBoolTest (ms : Marks) (x y : Expr) : Bool :=
  (is_marked ms x && is_marked ms y) || (is_complement ms x && is_complement ms y)

/-- Rule body for an `eq` representative whose left side is an `ite`
(lines 100-103). -/
def eqIteTest (ms : Marks) (y z u v : Expr) : Bool :=
  (is_marked ms z && equiv y v) || (is_complement ms z && equiv y u)

/-- Rule body for a Boolean `ite` representative (lines 113-118). -/
def iteTest (ms : Marks) (x y z : Expr) : Bool :=
  (is_marked ms x && is_complement ms z) ||
  (is_complement ms x && is_complement ms y) ||
  (is_complement ms y && is_complement ms z)

/-- Rule body for an `implies` representative (lines 129-132). -/
def impliesTest (ms : Marks) (x y : Expr) : Bool :=
  is_marked ms x || is_complement ms y

/-- Rule body for an `xor` representative (lines 140-147): the signed
count over the xor's arguments is even; the parity test `(parity % 2) == 0`
uses C truncating remainder. -/
def xorTest (ms : Marks) (args : List Expr) : Bool :=
  Int.tmod (args.foldl (parityStep ms) 0) 2 == 0

/-- Rule body for a negated `and` representative (lines 162-164): some
conjunct is plainly marked. -/
def notAndTest (ms : Marks) (args : List Expr) : Bool :=
  args.any (fun arg => is_marked ms arg)

/-- Rule body for a negated `or` representative (lines 172-175): every
disjunct is plainly marked. -/
def notOrTest (ms : Marks) (args : List Expr) : Bool :=
  args.all (fun arg => is_marked ms arg)

/-- Rule body for a negated Boolean `eq` representative (lines 183-186). -/
def notEqTest (ms : Marks) (x y : Expr) : Bool :=
  (is_marked ms x && is_complement ms y) || (is_marked ms y && is_complement ms x)

/-- Rule body for a negated Boolean `ite` representative (lines 195-200). -/
def notIteTest (ms : Marks) (x y z : Expr) : Bool :=
  (is_complement ms x && is_marked ms y) ||
  (is_marked ms x && is_marked ms z) ||
  (is_marked ms y && is_marked ms z)

/-- Rule body for a negated `implies` representative (lines 208-209). -/
def notImpliesTest (ms : Marks) (x y : Expr) : Bool :=
  is_complement ms x && is_marked ms y

/-- Rule body for a negated `xor` representative (lines 217-224): the
counter starts at 1 and the loop runs over the arguments of `main_expr`
itself, which for `main_expr = not (xor bs)` is the singleton list
`[xor bs]` rather than `bs`. -/
def notXorTest (ms : Marks) (mainArgs : List Expr) : Bool :=
  Int.tmod (mainArgs.foldl (parityStep ms) 1) 2 == 0

/-- The checker `proof_checker::check` (lines 41-232): pick the
representative literal, then run the rule branches in source order; each
signed branch complement-marks every clause literal into a fresh scope,
the two sign-blind sub-checks of a negated representative plainly mark
them, and a representative matching no branch (or only failing branches)
yields false. -/
def check (jst : List Expr) : Bool :=
  match pickRep jst with
  | none => false
  | some mainExpr =>
    match mainExpr with
    | .and args => andTest (complementMarks jst) args
    | .or args => orTest (complementMarks jst) args
    | .eq x y =>
        (x.isBool && eqBoolTest (complementMarks jst) x y) ||
        (match x with
         | .ite z u v => eqIteTest (complementMarks jst) y z u v
         | _ => false)
    | .ite x y z => z.isBool && iteTest (complementMarks jst) x y z
    | .implies x y => impliesTest (complementMarks jst) x y
    | .xor args => xorTest (complementMarks jst) args
    | .not a =>
        jst.any (fun arg => equiv a arg) ||
        (match a with
         | .and args => notAndTest (plainMarks jst) args
         | .or args => notOrTest (plainMarks jst) args
         | .eq x y => x.isBool && notEqTest (complementMarks jst) x y
         | .ite x y z => z.isBool && notIteTest (complementMarks jst) x y z
         | .implies x y => notImpliesTest (complementMarks jst) x y
         | .xor _ => notXorTest (complementMarks jst) [a]
         | _ => false)
    | _ => false

/-- Stateful form of `proof_checker::check` with the mark-store state made
explicit: the returned pair is the verdict and the mark-store contents
after the call.  Each branch the source guards with a `scoped_mark`
accumulates its marks on the store current at scope open and leaves the
store reset by the guard's destruction — on early returns included —
while paths that open no scope leave the store untouched. -/
def checkSt (ms : Marks) (jst : List Expr) : Bool × Marks :=
  match pickRep jst with
  | none => (false, ms)
  | some mainExpr =>
    match mainExpr with
    | .and args => (andTest (jst.foldl complement_mark ms) args, Marks.empty)
    | .or args => (orTest (jst.foldl complement_mark ms) args, Marks.empty)
    | .eq x y =>
        if x.isBool then
          if eqBoolTest (jst.foldl complement_mark ms) x y then (true, Marks.empty)
          else
            match x with
            | .ite z u v =>
                (eqIteTest (jst.foldl complement_mark Marks.empty) y z u v, Marks.empty)
            | _ => (false, Marks.empty)
        else
          match x with
          | .ite z u v => (eqIteTest (jst.foldl complement_mark ms) y z u v, Marks.empty)
          | _ => (false, ms)
    | .ite x y z =>
        if z.isBool then (iteTest (jst.foldl complement_mark ms) x y z, Marks.empty)
        else (false, ms)
    | .implies x y => (impliesTest (jst.foldl complement_mark ms) x y, Marks.empty)
    | .xor args => (xorTest (jst.foldl complement_mark ms) args, Marks.empty)
    | .not a =>
        if jst.any (fun arg => equiv a arg) then (true, ms)
        else
          match a with
          | .and args => (notAndTest (jst.foldl mark ms) args, Marks.empty)
          | .or args => (notOrTest (jst.foldl mark ms) args, Marks.empty)
          | .eq x y =>
              if x.isBool then (notEqTest (jst.foldl complement_mark ms) x y, Marks.empty)
              else (false, ms)
          | .ite x y z =>
              if z.isBool then
                (notIteTest (jst.foldl complement_mark ms) x y z, Marks.empty)
              else (false, ms)
          | .implies x y => (notImpliesTest (jst.foldl complement_mark ms) x y, Marks.empty)
          | .xor _ => (notXorTest (jst.foldl complement_mark ms) [a], Marks.empty)
          | _ => (false, ms)
    | _ => (false, ms)

/-- Reference form of the representative scan once a representative is
held: a deeper literal displaces it, a tied literal displaces it while it
is a negation. -/
def scanRef (r : Expr) (maxd : Nat) : List Expr → Expr
  | [] => r
  | a :: as =>
      if maxd < depth a then scanRef a (depth a) as
      else if depth a = maxd ∧ r.isNot = true then scanRef a maxd as
      else scanRef r maxd as

/-! Bridge lemmas: the mark store populated from a clause answers
membership questions about the clause itself. -/

theorem depth_pos (e : Expr) : 1 ≤ depth e := by
  cases e <;> simp [depth]

theorem bool_eq_decide {b : Bool} {p : Prop} [Decidable p]
    (h : b = true ↔ p) : b = decide p := by
  by_cases hp : p
  · rw [h.mpr hp, decide_eq_true hp]
  · rw [decide_eq_false hp]
    cases hb : b
    · rfl
    · exact absurd (h.mp hb) hp

theorem complement_mark_mmark (ms : Marks) (a : Expr) :
    (complement_mark ms a).mmark = a :: ms.mmark := by
  cases a <;> rfl

theorem foldl_complement_mark_mmark (jst : List Expr) :
    ∀ (ms : Marks) (x : Expr),
      ((jst.foldl complement_mark ms).mmark.contains x = true) ↔
        (ms.mmark.contains x = true ∨ x ∈ jst) := by
  induction jst with
  | nil => intro ms x; simp
  | cons a as ih =>
      intro ms x
      rw [List.foldl_cons, ih, complement_mark_mmark]
      simp [List.mem_cons]
      tauto

theorem foldl_complement_mark_nmark (jst : List Expr) :
    ∀ (ms : Marks) (x : Expr),
      ((jst.foldl complement_mark ms).nmark.contains x = true) ↔
        (ms.nmark.contains x = true ∨ Expr.not x ∈ jst) := by
  induction jst with
  | nil => intro ms x; simp
  | cons a as ih =>
      intro ms x
      rw [List.foldl_cons, ih]
      cases a <;> simp [complement_mark, List.mem_cons] <;> tauto

theorem foldl_mark_mmark (jst : List Expr) :
    ∀ (ms : Marks) (x : Expr),
      ((jst.foldl mark ms).mmark.contains x = true) ↔
        (ms.mmark.contains x = true ∨ x ∈ jst) := by
  induction jst with
  | nil => intro ms x; simp
  | cons a as ih =>
      intro ms x
      rw [List.foldl_cons, ih]
      simp [mark, List.mem_cons]
      tauto

theorem foldl_mark_nmark (jst : List Expr) :
    ∀ (ms : Marks), (jst.foldl mark ms).nmark = ms.nmark := by
  induction jst with
  | nil => intro ms; rfl
  | cons a as ih => intro ms; rw [List.foldl_cons, ih]; rfl

theorem is_marked_complementMarks (jst : List Expr) (x : Expr) :
    is_marked (complementMarks jst) x = true ↔ x ∈ jst := by
  unfold is_marked complementMarks
  rw [foldl_complement_mark_mmark]
  simp [Marks.empty]

theorem is_complement_complementMarks (jst : List Expr) (x : Expr) :
    is_complement (complementMarks jst) x = true ↔ negateExpr x ∈ jst := by
  cases x <;>
    simp only [is_complement, negateExpr] <;>
    first
      | exact is_marked_complementMarks jst _
      | (unfold complementMarks
         rw [foldl_complement_mark_nmark]
         simp [Marks.empty])

theorem is_marked_plainMarks (jst : List Expr) (x : Expr) :
    is_marked (plainMarks jst) x = true ↔ x ∈ jst := by
  unfold is_marked plainMarks
  rw [foldl_mark_mmark]
  simp [Marks.empty]

theorem is_marked_complementMarks_eq (jst : List Expr) (x : Expr) :
    is_marked (complementMarks jst) x = decide (x ∈ jst) :=
  bool_eq_decide (is_marked_complementMarks jst x)

theorem is_complement_complementMarks_eq (jst : List Expr) (x : Expr) :
    is_complement (complementMarks jst) x = decide (negateExpr x ∈ jst) :=
  bool_eq_decide (is_complement_complementMarks jst x)

theorem is_marked_plainMarks_eq (jst : List Expr) (x : Expr) :
    is_marked (plainMarks jst) x = decide (x ∈ jst) :=
  bool_eq_decide (is_marked_plainMarks jst x)

/-! Characterization of the representative-selection scan. -/

theorem repStep_gt {maxd : Nat} {a : Expr} (main0 : Option Expr)
    (h : maxd < depth a) : repStep (main0, maxd) a = (some a, depth a) := by
  simp [repStep, h, isNotOpt, Expr.isNot]

theorem repStep_tie {maxd : Nat} {a r : Expr}
    (_h : ¬ maxd < depth a) (h2 : depth a = maxd) (h3 : r.isNot = true) :
    repStep (some r, maxd) a = (some a, maxd) := by
  simp [repStep, isNotOpt, h2, h3]

theorem repStep_keep {maxd : Nat} {a r : Expr}
    (h : ¬ maxd < depth a) (h2 : ¬ (depth a = maxd ∧ r.isNot = true)) :
    repStep (some r, maxd) a = (some r, maxd) := by
  simp [repStep, h, isNotOpt]
  intro ha hb
  exact absurd ⟨ha, hb⟩ h2

theorem foldl_repStep_char (as : List Expr) :
    ∀ (r : Expr) (maxd : Nat),
      as.foldl repStep (some r, maxd) =
        (some (scanRef r maxd as), as.foldl (fun d l => max d (depth l)) maxd) := by
  induction as with
  | nil => intro r maxd; simp [scanRef]
  | cons a as ih =>
      intro r maxd
      rw [List.foldl_cons, List.foldl_cons]
      by_cases h1 : maxd < depth a
      · rw [repStep_gt _ h1, ih, scanRef, if_pos h1, Nat.max_eq_right (Nat.le_of_lt h1)]
      · by_cases h2 : depth a = maxd ∧ r.isNot = true
        · rw [repStep_tie h1 h2.1 h2.2, ih, scanRef, if_neg h1, if_pos h2,
            Nat.max_eq_left (Nat.le_of_not_lt h1)]
        · rw [repStep_keep h1 h2, ih, scanRef, if_neg h1, if_neg h2,
            Nat.max_eq_left (Nat.le_of_not_lt h1)]

theorem scanRef_mem (as : List Expr) :
    ∀ (r : Expr) (maxd : Nat), scanRef r maxd as = r ∨ scanRef r maxd as ∈ as := by
  induction as with
  | nil => intro r maxd; left; rfl
  | cons a as ih =>
      intro r maxd
      rw [scanRef]
      split
      · rcases ih a (depth a) with h | h
        · right; rw [h]; exact List.mem_cons_self a as
        · right; exact List.mem_cons_of_mem a h
      · split
        · rcases ih a maxd with h | h
          · right; rw [h]; exact List.mem_cons_self a as
          · right; exact List.mem_cons_of_mem a h
        · rcases ih r maxd with h | h
          · left; exact h
          · right; exact List.mem_cons_of_mem a h

theorem scanRef_depth (as : List Expr) :
    ∀ (r : Expr) (maxd : Nat), depth r = maxd →
      depth (scanRef r maxd as) = as.foldl (fun d l => max d (depth l)) maxd := by
  induction as with
  | nil => intro r maxd h; exact h
  | cons a as ih =>
      intro r maxd h
      rw [scanRef, List.foldl_cons]
      split
      · rename_i h1
        rw [Nat.max_eq_right (Nat.le_of_lt h1)]
        exact ih a (depth a) rfl
      · rename_i h1
        rw [Nat.max_eq_left (Nat.le_of_not_lt h1)]
        split
        · rename_i h2
          exact ih a maxd h2.1
        · exact ih r maxd h

theorem scanRef_keep_of_not_negation (as : List Expr) :
    ∀ (r : Expr) (maxd : Nat), depth r = maxd → r.isNot = false →
      (∀ x ∈ as, depth x ≤ maxd) → scanRef r maxd as = r := by
  induction as with
  | nil => intro r maxd _ _ _; rfl
  | cons a as ih =>
      intro r maxd h hneg hle
      rw [scanRef]
      rw [if_neg (Nat.not_lt.mpr (hle a (List.mem_cons_self a as))),
        if_neg (by rintro ⟨_, hr⟩; rw [hneg] at hr; exact Bool.false_ne_true hr)]
      exact ih r maxd h hneg fun x hx => hle x (List.mem_cons_of_mem a hx)

theorem repStep_start (a : Expr) : repStep (none, 0) a = (some a, depth a) :=
  repStep_gt none (Nat.lt_of_lt_of_le Nat.zero_lt_one (depth_pos a))

theorem pickRep_cons_char (a : Expr) (as : List Expr) :
    (a :: as).foldl repStep (none, 0) =
      (some (scanRef a (depth a) as),
        as.foldl (fun d l => max d (depth l)) (depth a)) := by
  rw [List.foldl_cons, repStep_start, foldl_repStep_char]

theorem pickRep_eq_none_iff (jst : List Expr) :
    pickRep jst = none ↔ jst = [] := by
  cases jst with
  | nil => simp [pickRep]
  | cons a as =>
      unfold pickRep
      rw [pickRep_cons_char]
      simp

theorem le_foldl_max_init (as : List Expr) :
    ∀ (d : Nat), d ≤ as.foldl (fun d l => max d (depth l)) d := by
  induction as with
  | nil => intro d; exact le_rfl
  | cons a as ih =>
      intro d
      rw [List.foldl_cons]
      exact le_trans (Nat.le_max_left d (depth a)) (ih _)

theorem mem_le_foldl_max (as : List Expr) :
    ∀ (d : Nat) (x : Expr), x ∈ as → depth x ≤ as.foldl (fun d l => max d (depth l)) d := by
  induction as with
  | nil => intro d x hx; exact absurd hx (List.not_mem_nil x)
  | cons a as ih =>
      intro d x hx
      rw [List.foldl_cons]
      rcases List.mem_cons.mp hx with h | h
      · subst h; exact le_trans (Nat.le_max_right d (depth x)) (le_foldl_max_init as _)
      · exact ih _ x h

/-- State of the scan after a clause whose representative is `r`: the held
pair is exactly `(r, depth r)`. -/
theorem pickRep_state (c : List Expr) (r : Expr) (h : pickRep c = some r) :
    c.foldl repStep (none, 0) = (some r, depth r) := by
  cases c with
  | nil => exact absurd h (by simp [pickRep])
  | cons a as =>
      have hc := pickRep_cons_char a as
      have hr : scanRef a (depth a) as = r := by
        have := h
        rw [pickRep, hc] at this
        exact Option.some.inj this
      rw [hc, hr, ← scanRef_depth as a (depth a) rfl, hr]

/-- C2: the representative literal chosen by `check` is a clause literal of
maximal depth; a held non-negated representative is never displaced by any
further literal of no greater depth (in particular by an equal-depth
negation), while a held negation is displaced by any tied literal; an
empty clause yields no representative. -/
theorem check_representative_selection :
    pickRep ([] : List Expr) = none ∧
    (∀ jst : List Expr, jst ≠ [] →
      ∃ r, pickRep jst = some r ∧ r ∈ jst ∧ ∀ l ∈ jst, depth l ≤ depth r) ∧
    (∀ (c1 c2 : List Expr) (r : Expr), pickRep c1 = some r → r.isNot = false →
      (∀ x ∈ c2, depth x ≤ depth r) → pickRep (c1 ++ c2) = some r) ∧
    (∀ (c1 : List Expr) (x r : Expr), pickRep c1 = some r → r.isNot = true →
      depth x = depth r → pickRep (c1 ++ [x]) = some x) := by
  refine ⟨rfl, ?_, ?_, ?_⟩
  · intro jst hne
    cases jst with
    | nil => exact absurd rfl hne
    | cons a as =>
        refine ⟨scanRef a (depth a) as, ?_, ?_, ?_⟩
        · unfold pickRep
          rw [pickRep_cons_char]
        · rcases scanRef_mem as a (depth a) with h | h
          · rw [h]; exact List.mem_cons_self a as
          · exact List.mem_cons_of_mem a h
        · intro l hl
          rw [scanRef_depth as a (depth a) rfl]
          rcases List.mem_cons.mp hl with h | h
          · rw [h]; exact le_foldl_max_init as (depth a)
          · exact mem_le_foldl_max as (depth a) l h
  · intro c1 c2 r h hneg hle
    unfold pickRep
    rw [List.foldl_append, pickRep_state c1 r h, foldl_repStep_char,
      scanRef_keep_of_not_negation c2 r (depth r) rfl hneg hle]
  · intro c1 x r h hneg hd
    unfold pickRep
    rw [List.foldl_append, pickRep_state c1 r h, List.foldl_cons,
      repStep_tie (by rw [hd]; exact Nat.lt_irrefl _) hd hneg]
    rfl

theorem check_representative_selection_witness :
    (∃ r, pickRep [Expr.atom 0, Expr.not (Expr.atom 1)] = some r ∧
      r ∈ [Expr.atom 0, Expr.not (Expr.atom 1)] ∧
      ∀ l ∈ [Expr.atom 0, Expr.not (Expr.atom 1)], depth l ≤ depth r) ∧
    pickRep ([Expr.and [Expr.atom 0, Expr.atom 1]] ++ [Expr.not (Expr.atom 2)]) =
      some (Expr.and [Expr.atom 0, Expr.atom 1]) ∧
    pickRep ([Expr.not (Expr.atom 0)] ++ [Expr.not (Expr.atom 1)]) =
      some (Expr.not (Expr.atom 1)) :=
  ⟨check_representative_selection.2.1 [Expr.atom 0, Expr.not (Expr.atom 1)] (by decide),
   check_representative_selection.2.2.1 [Expr.and [Expr.atom 0, Expr.atom 1]]
     [Expr.not (Expr.atom 2)] (Expr.and [Expr.atom 0, Expr.atom 1])
     (by decide) (by decide) (by decide),
   check_representative_selection.2.2.2 [Expr.not (Expr.atom 0)]
     (Expr.not (Expr.atom 1)) (Expr.not (Expr.atom 0))
     (by decide) (by decide) (by decide)⟩

/-- C4: `check` is a total Boolean function of the justification; an empty
clause yields no representative and verdict false, a representative whose
connective matches no rule (a Boolean or non-Boolean constant) yields
false, and a recognized connective none of whose rule disjuncts holds (an
implication with neither side attested) yields false. -/
theorem check_error_handling :
    (∀ jst : List Expr, pickRep jst = none ↔ jst = []) ∧
    check [] = false ∧
    (∀ (jst : List Expr) (i : Nat), pickRep jst = some (Expr.atom i) → check jst = false) ∧
    (∀ (jst : List Expr) (i : Nat), pickRep jst = some (Expr.tatom i) → check jst = false) ∧
    (∀ (jst : List Expr) (x y : Expr), pickRep jst = some (Expr.implies x y) →
      x ∉ jst → negateExpr y ∉ jst → check jst = false) := by
  refine ⟨pickRep_eq_none_iff, rfl, ?_, ?_, ?_⟩
  · intro jst i h; simp [check, h]
  · intro jst i h; simp [check, h]
  · intro jst x y h hx hy
    simp [check, h, impliesTest, is_marked_complementMarks_eq,
      is_complement_complementMarks_eq, hx, hy]

theorem check_error_handling_witness :
    check [Expr.atom 0] = false ∧
    check [Expr.tatom 0] = false ∧
    check [Expr.implies (Expr.atom 0) (Expr.atom 1)] = false :=
  ⟨check_error_handling.2.2.1 [Expr.atom 0] 0 (by decide),
   check_error_handling.2.2.2.1 [Expr.tatom 0] 0 (by decide),
   check_error_handling.2.2.2.2 [Expr.implies (Expr.atom 0) (Expr.atom 1)]
     (Expr.atom 0) (Expr.atom 1) (by decide) (by decide) (by decide)⟩

/-- C3: with an `and` representative, `check` succeeds exactly when every
conjunct has its complement attested among the clause literals; in
particular `{and(a,b), not(a), not(b)}` verifies and `{and(a,b), not(a)}`
does not. -/
theorem check_and_rule :
    (∀ (jst args : List Expr), pickRep jst = some (Expr.and args) →
      (check jst = true ↔ ∀ a ∈ args, negateExpr a ∈ jst)) ∧
    check [Expr.and [Expr.atom 0, Expr.atom 1],
      Expr.not (Expr.atom 0), Expr.not (Expr.atom 1)] = true ∧
    check [Expr.and [Expr.atom 0, Expr.atom 1], Expr.not (Expr.atom 0)] = false := by
  refine ⟨?_, by decide, by decide⟩
  intro jst args h
  simp [check, h, andTest, List.all_eq_true, is_complement_complementMarks_eq]

theorem check_and_rule_witness :
    check [Expr.and [Expr.atom 0], Expr.not (Expr.atom 0)] = true ↔
      ∀ a ∈ [Expr.atom 0],
        negateExpr a ∈ [Expr.and [Expr.atom 0], Expr.not (Expr.atom 0)] :=
  check_and_rule.1 [Expr.and [Expr.atom 0], Expr.not (Expr.atom 0)]
    [Expr.atom 0] (by decide)

/-- C5: with an `xor` representative, `check` succeeds exactly when the
signed count over the xor's arguments — plus one for each argument present
as a clause literal, minus one for each remaining argument whose complement
is a clause literal — is even; in particular
`{xor(a,b,c,d), a, b, not(c), not(d)}` verifies. -/
theorem check_xor_rule :
    (∀ (jst args : List Expr), pickRep jst = some (Expr.xor args) →
      (check jst = true ↔
        Int.tmod (args.foldl (fun p a => if a ∈ jst then p + 1
          else if negateExpr a ∈ jst then p - 1 else p) 0) 2 = 0)) ∧
    check [Expr.xor [Expr.atom 0, Expr.atom 1, Expr.atom 2, Expr.atom 3],
      Expr.atom 0, Expr.atom 1, Expr.not (Expr.atom 2), Expr.not (Expr.atom 3)] = true := by
  refine ⟨?_, by decide⟩
  intro jst args h
  have hps : parityStep (complementMarks jst) = fun p a =>
      if a ∈ jst then p + 1 else if negateExpr a ∈ jst then p - 1 else p := by
    funext p a
    simp only [parityStep, is_marked_complementMarks_eq,
      is_complement_complementMarks_eq, decide_eq_true_eq]
  simp [check, h, xorTest, hps]

theorem check_xor_rule_witness :
    check [Expr.xor [Expr.atom 0, Expr.atom 1], Expr.atom 0] = true ↔
      Int.tmod ([Expr.atom 0, Expr.atom 1].foldl
        (fun p a => if a ∈ [Expr.xor [Expr.atom 0, Expr.atom 1], Expr.atom 0] then p + 1
          else if negateExpr a ∈ [Expr.xor [Expr.atom 0, Expr.atom 1], Expr.atom 0]
            then p - 1 else p) 0) 2 = 0 :=
  check_xor_rule.1 [Expr.xor [Expr.atom 0, Expr.atom 1], Expr.atom 0]
    [Expr.atom 0, Expr.atom 1] (by decide)

/-- C8: with an `implies(x,y)` representative, `check` succeeds exactly
when `x` is present as a clause literal or the complement of `y` is; in
particular `{implies(a,b), a}` and `{implies(a,b), not(b)}` both verify. -/
theorem check_implies_rule :
    (∀ (jst : List Expr) (x y : Expr), pickRep jst = some (Expr.implies x y) →
      (check jst = true ↔ x ∈ jst ∨ negateExpr y ∈ jst)) ∧
    check [Expr.implies (Expr.atom 0) (Expr.atom 1), Expr.atom 0] = true ∧
    check [Expr.implies (Expr.atom 0) (Expr.atom 1), Expr.not (Expr.atom 1)] = true := by
  refine ⟨?_, by decide, by decide⟩
  intro jst x y h
  simp [check, h, impliesTest, is_marked_complementMarks_eq,
    is_complement_complementMarks_eq]

theorem check_implies_rule_witness :
    check [Expr.implies (Expr.atom 0) (Expr.atom 1), Expr.atom 0] = true ↔
      Expr.atom 0 ∈ [Expr.implies (Expr.atom 0) (Expr.atom 1), Expr.atom 0] ∨
      negateExpr (Expr.atom 1) ∈ [Expr.implies (Expr.atom 0) (Expr.atom 1), Expr.atom 0] :=
  check_implies_rule.1 [Expr.implies (Expr.atom 0) (Expr.atom 1), Expr.atom 0]
    (Expr.atom 0) (Expr.atom 1) (by decide)

/-- C6: `equiv` is reflexive, and on non-identical terms holds exactly for
two equalities with cross-matched sides; `eq(x,y)` is equivalent to
`eq(y,x)`, while distinct commuted conjunctions are not recognized. -/
theorem equiv_characterization :
    (∀ a : Expr, equiv a a = true) ∧
    (∀ a b : Expr, a ≠ b →
      (equiv a b = true ↔ ∃ p q, a = Expr.eq p q ∧ b = Expr.eq q p)) ∧
    (∀ x y : Expr, equiv (Expr.eq x y) (Expr.eq y x) = true) ∧
    (∀ a b : Expr, a ≠ b →
      equiv (Expr.and [a, b]) (Expr.and [b, a]) = false) := by
  refine ⟨?_, ?_, ?_, ?_⟩
  · intro a; simp [equiv]
  · intro a b hne
    cases a <;> cases b <;> simp [equiv, hne] <;> aesop
  · intro x y
    by_cases h : x = y <;> simp [equiv, h]
  · intro a b hne
    have h : Expr.and [a, b] ≠ Expr.and [b, a] := by
      intro hc
      simp at hc
      exact hne hc.1
    simp [equiv, h]

theorem equiv_characterization_witness :
    (equiv (Expr.atom 0) (Expr.not (Expr.atom 1)) = true ↔
      ∃ p q, Expr.atom 0 = Expr.eq p q ∧ Expr.not (Expr.atom 1) = Expr.eq q p) ∧
    equiv (Expr.and [Expr.atom 0, Expr.atom 1])
      (Expr.and [Expr.atom 1, Expr.atom 0]) = false :=
  ⟨equiv_characterization.2.1 (Expr.atom 0) (Expr.not (Expr.atom 1)) (by decide),
   equiv_characterization.2.2.2 (Expr.atom 0) (Expr.atom 1) (by decide)⟩

theorem equiv_or_eq (args : List Expr) (l : Expr) :
    equiv (Expr.or args) l = decide (Expr.or args = l) := by
  by_cases h : Expr.or args = l
  · simp [equiv, h]
  · cases l <;> simp [equiv, h]

/-- C9 counterexample: with representative `not(or(a,b))` and the `or`
itself among the clause literals, `check` succeeds through the preceding
structural-equivalence scan even though no disjunct is plainly marked —
so success is not exactly "every disjunct marked present". -/
theorem check_notor_rule_counterexample :
    pickRep [Expr.not (Expr.or [Expr.atom 0, Expr.atom 1]),
        Expr.or [Expr.atom 0, Expr.atom 1]] =
      some (Expr.not (Expr.or [Expr.atom 0, Expr.atom 1])) ∧
    check [Expr.not (Expr.or [Expr.atom 0, Expr.atom 1]),
      Expr.or [Expr.atom 0, Expr.atom 1]] = true ∧
    ¬ (∀ b ∈ [Expr.atom 0, Expr.atom 1],
        is_marked (plainMarks [Expr.not (Expr.or [Expr.atom 0, Expr.atom 1]),
          Expr.or [Expr.atom 0, Expr.atom 1]]) b = true) := by
  decide

/-- C9 amended: with a `not(or(b1..bn))` representative, `check` succeeds
exactly when some clause literal is the `or` term itself (the
equivalence scan, which runs first) or every disjunct is present among the
clause literals under the plain sign-blind mark. -/
theorem check_notor_rule_amended :
    ∀ (jst args : List Expr), pickRep jst = some (Expr.not (Expr.or args)) →
      (check jst = true ↔ Expr.or args ∈ jst ∨ ∀ b ∈ args, b ∈ jst) := by
  intro jst args h
  simp [check, h, notOrTest, List.all_eq_true, List.any_eq_true,
    is_marked_plainMarks_eq, equiv_or_eq]

theorem check_notor_rule_amended_witness :
    check [Expr.not (Expr.or [Expr.atom 0]), Expr.atom 0] = true ↔
      Expr.or [Expr.atom 0] ∈ [Expr.not (Expr.or [Expr.atom 0]), Expr.atom 0] ∨
      ∀ b ∈ [Expr.atom 0], b ∈ [Expr.not (Expr.or [Expr.atom 0]), Expr.atom 0] :=
  check_notor_rule_amended [Expr.not (Expr.or [Expr.atom 0]), Expr.atom 0]
    [Expr.atom 0] (by decide)

/-- C10: with any negated representative `not(a)`, `check` succeeds
whenever some clause literal is `equiv` to `a`, whatever the shape of `a`;
on `{not(and(a,b)), and(a,b)}` this equivalence path verifies the clause
even though the negated-`and` shape rule alone finds no marked conjunct. -/
theorem check_not_equiv_rule :
    (∀ (jst : List Expr) (a : Expr), pickRep jst = some (Expr.not a) →
      (∃ l ∈ jst, equiv a l = true) → check jst = true) ∧
    check [Expr.not (Expr.and [Expr.atom 0, Expr.atom 1]),
      Expr.and [Expr.atom 0, Expr.atom 1]] = true ∧
    notAndTest (plainMarks [Expr.not (Expr.and [Expr.atom 0, Expr.atom 1]),
      Expr.and [Expr.atom 0, Expr.atom 1]]) [Expr.atom 0, Expr.atom 1] = false := by
  refine ⟨?_, by decide, by decide⟩
  intro jst a h hex
  obtain ⟨l, hl, he⟩ := hex
  simp only [check, h, Bool.or_eq_true, List.any_eq_true]
  exact Or.inl ⟨l, hl, he⟩

theorem check_not_equiv_rule_witness :
    check [Expr.not (Expr.atom 0), Expr.atom 0] = true :=
  check_not_equiv_rule.1 [Expr.not (Expr.atom 0), Expr.atom 0] (Expr.atom 0)
    (by decide) ⟨Expr.atom 0, by decide, by decide⟩

/-- C1: the negated-xor branch is mis-coded.  Its parity loop runs over
the arguments of `main_expr` — for `main_expr = not(xor(b1..bn))` the
singleton list holding the xor term itself, which the complement-marking
of the representative always attests — rather than over `b1..bn` as the
comment `(or (not (xor a b c d)) a b c (not d))` and the specified rule
require.  On the clause `{not(xor(a,b))}` the specified parity over
`b1..bn` is `1 + 0`, odd, demanding verdict false, yet `check` returns
true; indeed it returns true for every negated-xor justification. -/
theorem check_notxor_code_bug :
    check [Expr.not (Expr.xor [Expr.atom 0, Expr.atom 1])] = true ∧
    pickRep [Expr.not (Expr.xor [Expr.atom 0, Expr.atom 1])] =
      some (Expr.not (Expr.xor [Expr.atom 0, Expr.atom 1])) ∧
    Int.tmod ([Expr.atom 0, Expr.atom 1].foldl
      (parityStep (complementMarks
        [Expr.not (Expr.xor [Expr.atom 0, Expr.atom 1])])) 1) 2 = 1 := by
  decide

/-- C7: `check` is pure.  A call entered with an empty mark store computes
exactly the stateless verdict and leaves the store empty again — every
scope opened during the call is discarded on every exit path — so a second
call with the same justification, run on the state the first left behind,
returns the same verdict. -/
theorem check_purity :
    (∀ jst : List Expr, checkSt Marks.empty jst = (check jst, Marks.empty)) ∧
    (∀ jst : List Expr,
      (checkSt (checkSt Marks.empty jst).2 jst).1 = (checkSt Marks.empty jst).1) := by
  have h1 : ∀ jst : List Expr, checkSt Marks.empty jst = (check jst, Marks.empty) := by
    intro jst
    cases hp : pickRep jst with
    | none => simp [checkSt, check, hp]
    | some mainExpr =>
        cases mainExpr with
        | and args => simp [checkSt, check, hp, complementMarks]
        | or args => simp [checkSt, check, hp, complementMarks]
        | eq x y =>
            simp only [checkSt, check, hp, complementMarks]
            cases hb : x.isBool with
            | true =>
                cases ht : eqBoolTest (jst.foldl complement_mark Marks.empty) x y with
                | true => simp [hb, ht]
                | false => cases x <;> simp [hb, ht]
            | false => cases x <;> simp [hb]
        | ite x y z =>
            simp only [checkSt, check, hp, complementMarks]
            cases hb : z.isBool <;> simp [hb]
        | implies x y => simp [checkSt, check, hp, complementMarks]
        | xor args => simp [checkSt, check, hp, complementMarks]
        | not a =>
            simp only [checkSt, check, hp, complementMarks, plainMarks]
            cases he : jst.any (fun arg => equiv a arg) with
            | true => simp [he]
            | false =>
                cases a with
                | eq x y => cases hb : x.isBool <;> simp [he, hb]
                | ite x y z => cases hb : z.isBool <;> simp [he, hb]
                | atom i => simp [he]
                | tatom i => simp [he]
                | not b => simp [he]
                | and args => simp [he]
                | or args => simp [he]
                | implies x y => simp [he]
                | xor args => simp [he]
        | atom i => simp [checkSt, check, hp]
        | tatom i => simp [checkSt, check, hp]
  refine ⟨h1, fun jst => ?_⟩
  rw [h1 jst, h1 jst]

end Tseitin
